import Mathlib

/-!
# Verification of the OpenS3 key-to-path object store (`src/server.py`)

A shallow embedding of the filesystem-backed S3-like object store.  Buckets are
directories directly under a storage root, objects are regular files at the
path obtained by joining the bucket directory with the slash-separated key,
metadata lives in `<object-path>.metadata` sidecar files and explicitly created
directories carry a `.directory` marker file.

The filesystem is modelled as a finite tree of named entries
(`FSNode`/`FSEntries`); the storage root (`BASE_DIR`) is an `FSEntries` value.
File contents are byte lists, modification times are abstract `Nat` stamps;
the JSON (de)serialisation used for metadata is an external library and is a
parameter (`loads` / `dumps`) of the operations that consume it.

Severally noted in doc comments: path strings are interpreted at the level of
`/`-separated components, matching POSIX resolution of the relative paths the
server builds with `os.path.join`; the theorems about operations that take
arbitrary keys restrict them to keys without `.`/`..` components and without a
leading slash, where this component-level reading agrees with the OS.
-/

namespace OpenS3

/-- A byte string (Python `bytes`); each element is one byte value. -/
abbrev Bytes := List Nat

mutual
/-- A node of the modelled filesystem: a regular file with its content and
modification time, or a directory with its named entries. -/
inductive FSNode where
  | file (content : Bytes) (mtime : Nat)
  | dir (entries : FSEntries)

/-- The entries of a directory: a finite association list of names to nodes.
A concrete (mutual, rather than `List`-nested) inductive keeps every
definition below structurally recursive and hence kernel-reducible. -/
inductive FSEntries where
  | nil
  | cons (name : String) (node : FSNode) (rest : FSEntries)
end

/-- The storage root `BASE_DIR`: the directory whose entries are the buckets. -/
abbrev Root := FSEntries

/-- Python `s.startswith(p)`, read off on the underlying character lists. -/
def strStartsWith (s p : String) : Bool := p.data.isPrefixOf s.data

/-- Python `s.endswith(p)`, read off on the underlying character lists. -/
def strEndsWith (s p : String) : Bool := p.data.isSuffixOf s.data

/-- Split a character list on `/`. -/
def splitSlashAux : List Char → List Char → List String
  | [], cur => [String.mk cur.reverse]
  | c :: cs, cur =>
    if c = '/' then String.mk cur.reverse :: splitSlashAux cs []
    else splitSlashAux cs (c :: cur)

/-- The non-empty `/`-separated components of an object key.  POSIX path
resolution ignores repeated and trailing separators, so
`os.path.join(bucketPath, key)` names the location reached by following
exactly these components from the bucket directory (for keys without `.`,
`..` or a leading slash; the theorems below assume as much). -/
def keySegs (key : String) : List String :=
  (splitSlashAux key.data []).filter (fun s => s ≠ "")

/-- Look a name up among directory entries. -/
def lookupEntry : FSEntries → String → Option FSNode
  | .nil, _ => none
  | .cons k v rest, s => if k = s then some v else lookupEntry rest s

/-- Overwrite the binding of a name (or append it if absent), keeping the
remaining entries in place. -/
def setEntry : FSEntries → String → FSNode → FSEntries
  | .nil, s, n => .cons s n .nil
  | .cons k v rest, s, n =>
    if k = s then .cons s n rest else .cons k v (setEntry rest s n)

/-- Remove the binding of a name, if present. -/
def removeEntry : FSEntries → String → FSEntries
  | .nil, _ => .nil
  | .cons k v rest, s => if k = s then rest else .cons k v (removeEntry rest s)

/-- Follow a component path down from a node.  `none` when a component is
missing or a non-final component is a regular file (POSIX `ENOENT`/`ENOTDIR`,
under which `os.path.exists` is `False`). -/
def resolve : FSNode → List String → Option FSNode
  | n, [] => some n
  | .file _ _, _ :: _ => none
  | .dir es, s :: rest =>
    match lookupEntry es s with
    | some child => resolve child rest
    | none => none

/-- `os.path.exists` at a component path from the root; `trailing` records
whether the textual path ended in `/`, in which case a regular file does not
count as existing. -/
def existsAt (root : Root) (segs : List String) (trailing : Bool) : Bool :=
  match resolve (.dir root) segs with
  | some (.dir _) => true
  | some (.file _ _) => !trailing
  | none => false

/-- `os.path.isfile` at a component path from the root; a path written with a
trailing `/` never names a regular file. -/
def isfileAt (root : Root) (segs : List String) (trailing : Bool) : Bool :=
  match resolve (.dir root) segs with
  | some (.file _ _) => !trailing
  | _ => false

/-- `open(path, "wb")`: write a regular file at the component path.  Fails
(`none`) when an ancestor component is missing or is a regular file, when the
path is empty, or when the target is an existing directory; it does NOT create
missing parent directories. -/
def writeFileAt : FSNode → List String → Bytes → Nat → Option FSNode
  | .file _ _, _, _, _ => none
  | .dir _, [], _, _ => none
  | .dir es, s :: rest, c, mt =>
    match rest with
    | [] =>
      match lookupEntry es s with
      | some (.dir _) => none
      | _ => some (.dir (setEntry es s (.file c mt)))
    | _ :: _ =>
      match lookupEntry es s with
      | some child =>
        (writeFileAt child rest c mt).map (fun c2 => .dir (setEntry es s c2))
      | none => none

/-- `os.makedirs(path, exist_ok=True)`: create the chain of directories named
by the components, reusing existing directories; fails (`none`) when an
existing regular file occupies any component of the chain. -/
def mkdirs : FSNode → List String → Option FSNode
  | .file _ _, _ => none
  | .dir es, [] => some (.dir es)
  | .dir es, s :: rest =>
    match lookupEntry es s with
    | some child => (mkdirs child rest).map (fun c => .dir (setEntry es s c))
    | none => (mkdirs (.dir .nil) rest).map (fun c => .dir (setEntry es s c))

/-- The condition under which `open(path, "wb")` succeeds: every ancestor
exists and is a directory, and the target is not an existing directory. -/
def parentsOk : FSNode → List String → Bool
  | .file _ _, _ => false
  | .dir _, [] => false
  | .dir es, s :: rest =>
    match rest with
    | [] =>
      match lookupEntry es s with
      | some (.dir _) => false
      | _ => true
    | _ :: _ =>
      match lookupEntry es s with
      | some child => parentsOk child rest
      | none => false

/-!
## JSON values and the metadata sidecar

`json.loads` / `json.dump` are external library calls; the operations that use
them take them as explicit function parameters over this value type.
-/

/-- A JSON value, as produced by `json.loads`. -/
inductive JsonVal where
  | null
  | bool (b : Bool)
  | num (n : Int)
  | str (s : String)
  | arr (elems : List JsonVal)
  | obj (fields : List (String × JsonVal))

/-- Whether `pat` occurs as a contiguous run inside a character list
(Python `pat in s` for strings). -/
def charsInfixOf (pat : List Char) : List Char → Bool
  | [] => pat.isEmpty
  | c :: cs => if pat.isPrefixOf (c :: cs) then true else charsInfixOf pat cs

/-- Look up a field of a JSON object (Python `d[k]` after `k in d`). -/
def lookupField : List (String × JsonVal) → String → Option JsonVal
  | [], _ => none
  | (k, v) :: rest, s => if k = s then some v else lookupField rest s

/-- Whether a JSON array element is the string literal under scrutiny. -/
def isStrVal (target : String) : JsonVal → Bool
  | .str s => s = target
  | _ => false

/-- Lines 530-531 of `upload_object`: `if 'metadata' in json_data:` followed by
`json_data['metadata']`.  For a JSON object this is a field lookup.  For a
string, `in` is a substring test and the subsequent indexing with a string
raises `TypeError`; for an array, `in` is membership and the indexing likewise
raises; for numbers, booleans and `null`, `in` itself raises `TypeError`.
`.error ()` marks the raising outcomes. -/
def jsonMetadataField : JsonVal → Except Unit (Option JsonVal)
  | .obj fields => .ok (lookupField fields "metadata")
  | .str s =>
    if charsInfixOf "metadata".data s.data then .error () else .ok none
  | .arr elems =>
    if elems.any (isStrVal "metadata") then .error () else .ok none
  | _ => .error ()

/-- The path of an object's metadata sidecar: the textual path of the object
with `.metadata` appended (`object_path + '.metadata'`), i.e. the same
components with the suffix glued onto the last one. -/
def sidecarSegs : List String → List String
  | [] => []
  | [s] => [s ++ ".metadata"]
  | s :: rest => s :: sidecarSegs rest

/-!
## The server operations (`src/server.py`)

Each operation takes the storage root and returns the (possibly updated) root
together with an `Except` result carrying the HTTP status of the raised
`HTTPException` on failure: 404 NotFound, 409 AlreadyExists / NotEmpty,
500 IOFailure or an escaped exception.  Read-only operations return only the
`Except`.  Bucket names are treated as single path components, matching the
verbatim `os.path.join(BASE_DIR, bucket_name)` for slash-free names.
-/

/-- `bucket_exists` (server.py:169): the resolved bucket path exists and is a
directory. -/
def bucket_exists (root : Root) (bucket : String) : Bool :=
  match lookupEntry root bucket with
  | some (.dir _) => true
  | _ => false

/-- `object_exists` (server.py:181): `False` when the parent directory of the
object path is missing (lines 195-198), otherwise
`os.path.exists(p) and os.path.isfile(p)` for the joined path `p`, whose text
carries a trailing slash exactly when the key ends in `/`. -/
def object_exists (root : Root) (bucket key : String) : Bool :=
  let t := strEndsWith key "/"
  let segs := bucket :: keySegs key
  let parentSegs := if t then segs else segs.dropLast
  if !(existsAt root parentSegs false) then false
  else existsAt root segs t && isfileAt root segs t

/-- `create_bucket` (server.py:228): 409 when ANY filesystem entry — file or
directory — occupies the bucket path (`os.path.exists`, line 247); otherwise
creates the bucket directory. -/
def create_bucket (root : Root) (name : String) : Root × Except Nat Unit :=
  if (lookupEntry root name).isSome then (root, .error 409)
  else (setEntry root name (.dir .nil), .ok ())

/-- `head_bucket` (server.py:301): 404 unless the bucket exists. -/
def head_bucket (root : Root) (bucket : String) : Except Nat Unit :=
  if !bucket_exists root bucket then .error 404 else .ok ()

/-- The emptiness scan of `delete_bucket` (server.py:349-353): some entry name
neither ends in `.metadata` nor ends in `.directory`.  Note the SUFFIX test,
applied to files and directories alike. -/
def hasObjects : FSEntries → Bool
  | .nil => false
  | .cons name _ rest =>
    if !strEndsWith name ".metadata" && !strEndsWith name ".directory" then true
    else hasObjects rest

/-- The entries surviving the deletion loop of server.py:376-379, which removes
every top-level regular file (directories are left behind). -/
def keepDirs : FSEntries → FSEntries
  | .nil => .nil
  | .cons _ (.file _ _) rest => keepDirs rest
  | .cons name (.dir es) rest => .cons name (.dir es) (keepDirs rest)

/-- `delete_bucket` (server.py:325): 404 if the bucket is missing; 409 when the
suffix-based emptiness scan finds an object and `force` is not set.  With
`force`, every entry is removed (server.py:366-371); then every remaining
top-level file is removed and `os.rmdir` deletes the bucket directory — which
raises (modelled as 500) if a non-`force` deletion left subdirectories
behind. -/
def delete_bucket (root : Root) (bucket : String) (force : Bool) :
    Root × Except Nat Unit :=
  match lookupEntry root bucket with
  | some (.dir es) =>
    if hasObjects es && !force then (root, .error 409)
    else
      let es1 := if force then .nil else es
      match keepDirs es1 with
      | .nil => (removeEntry root bucket, .ok ())
      | leftover => (setEntry root bucket (.dir leftover), .error 500)
  | _ => (root, .error 404)

/-- An element of a listing response: an object key with the file's size and
modification time. -/
structure ObjEntry where
  key : String
  size : Nat
  last_modified : Nat
deriving DecidableEq, Repr

/-- Whether the `prefix` query parameter filters at all: Python's
`if prefix and ...` treats both an absent and an empty prefix as no filter. -/
def pfxActive : Option String → Bool
  | none => false
  | some p => !(p = "")

/-- The prefix string used by the filter (irrelevant when inactive). -/
def pfxVal : Option String → String
  | none => ""
  | some p => p

/-- `scan_directory` (server.py:602-656), the recursive listing walk.  Returns
the emitted `(key, size, mtime)` entries in traversal order, paired with the
list of child-directory key prefixes the walk recursed into.  Per entry:
names ending in `.metadata` are skipped, the name `.directory` is skipped,
a regular file is emitted unless an active prefix filter rejects its key, and
a directory is entered unless its name starts with `.` or an active prefix
filter is incomparable with its child prefix (two-way `startswith` check,
lines 646-648). -/
def scan_directory (pfx : Option String) :
    FSEntries → String → List ObjEntry × List String
  | .nil, _ => ([], [])
  | .cons name (.file c mt) rest, acc =>
    let restRes := scan_directory pfx rest acc
    if strEndsWith name ".metadata" then restRes
    else if name = ".directory" then restRes
    else
      let key := if acc = "" then name else acc ++ name
      if pfxActive pfx && !strStartsWith key (pfxVal pfx) then restRes
      else (⟨key, c.length, mt⟩ :: restRes.1, restRes.2)
  | .cons name (.dir es2) rest, acc =>
    let restRes := scan_directory pfx rest acc
    if strEndsWith name ".metadata" then restRes
    else if name = ".directory" then restRes
    else if strStartsWith name "." then restRes
    else
      let childPrefix := acc ++ name ++ "/"
      if pfxActive pfx && !strStartsWith childPrefix (pfxVal pfx)
          && !strStartsWith (pfxVal pfx) childPrefix then restRes
      else
        let sub := scan_directory pfx es2 childPrefix
        (sub.1 ++ restRes.1, childPrefix :: (sub.2 ++ restRes.2))

/-- `list_objects` (server.py:554): 404 unless the bucket exists, then the
objects collected by `scan_directory` from the bucket root with an empty
accumulated prefix. -/
def list_objects (root : Root) (bucket : String) (pfx : Option String) :
    Except Nat (List ObjEntry) :=
  if !bucket_exists root bucket then .error 404
  else
    match lookupEntry root bucket with
    | some (.dir es) => .ok (scan_directory pfx es "").1
    | _ => .error 404

/-- `download_object` (server.py:832): 404 unless bucket and object exist, then
the object file's bytes (the final branch is unreachable because
`object_exists` already certified a regular file). -/
def download_object (root : Root) (bucket key : String) : Except Nat Bytes :=
  if !bucket_exists root bucket then .error 404
  else if !object_exists root bucket key then .error 404
  else
    match resolve (.dir root) (bucket :: keySegs key) with
    | some (.file c _) => .ok c
    | _ => .error 500

/-- `get_object_metadata` (server.py:731): 404 unless bucket and object exist;
`{}` when no sidecar file exists; an `error`-annotated object — not a
failure — when the sidecar exists but `json.load` raises (server.py:769-774;
the message for the non-file sidecar case is abbreviated). -/
def get_object_metadata (loads : Bytes → Except String JsonVal)
    (root : Root) (bucket key : String) : Except Nat JsonVal :=
  if !bucket_exists root bucket then .error 404
  else if !object_exists root bucket key then .error 404
  else
    match resolve (.dir root) (sidecarSegs (bucket :: keySegs key)) with
    | none => .ok (.obj [])
    | some (.file c _) =>
      match loads c with
      | .ok v => .ok v
      | .error _ =>
        .ok (.obj [("error",
          .str "Metadata file exists but contains invalid JSON format")])
    | some (.dir _) => .ok (.obj [("error", .str "Error accessing metadata")])

/-- The content written into a `.directory` marker file by the S3-style
directory-marker branch of `upload_object` (server.py:499): a human-readable
message containing the creation timestamp.  Only its presence and length are
observable in the properties proved. -/
def directoryMarkerContent (now : Nat) : Bytes :=
  (toString now).data.map Char.toNat

/-- The response body of a successful upload (server.py:546-552). -/
structure UploadResult where
  key : String
  size : Nat
  bucket : String
  content_type : Option String
  metadata : JsonVal

/-- Lines 523-552 of `upload_object`: the metadata-processing tail shared by
both upload branches.  `objectSegs` is the component path of the saved file
(the `.directory` marker file for the marker branch) and `object_size` its
size on disk.

The `json` form parameter SHADOWS the `json` module inside `upload_object`, so
when any exception is raised inside the `try` of lines 527-537 — a
`JSONDecodeError` from `loads`, a `TypeError` from `'metadata' in json_data`,
or an I/O failure writing the sidecar — evaluating the first except clause
`json.JSONDecodeError` (server.py:538) raises `AttributeError` on the string
parameter, which escapes the handler and fails the whole request with a 500
response (despite the comment at server.py:540). -/
def finishUpload (loads : Bytes → Except String JsonVal)
    (dumps : JsonVal → Bytes) (root : Root) (bucket object_key : String)
    (objectSegs : List String) (object_size : Nat) (ctype : Option String)
    (jsonParam : Option Bytes) (now : Nat) : Root × Except Nat UploadResult :=
  match jsonParam with
  | none => (root, .ok ⟨object_key, object_size, bucket, ctype, .obj []⟩)
  | some j =>
    if j = [] then (root, .ok ⟨object_key, object_size, bucket, ctype, .obj []⟩)
    else
      match loads j with
      | .error _ => (root, .error 500)
      | .ok v =>
        match jsonMetadataField v with
        | .error _ => (root, .error 500)
        | .ok none => (root, .ok ⟨object_key, object_size, bucket, ctype, .obj []⟩)
        | .ok (some m) =>
          match writeFileAt (.dir root) (sidecarSegs objectSegs) (dumps m) now with
          | some (.dir root1) =>
            (root1, .ok ⟨object_key, object_size, bucket, ctype, m⟩)
          | _ => (root, .error 500)

/-- `upload_object` (server.py:449): 404 unless the bucket exists.  A key
ending in `/` is an S3-style directory marker: the directory chain is created
(`os.makedirs(..., exist_ok=True)`, server.py:494) and a `.directory` marker
file is written inside it; no object file is created.  Any other key is
written with `open(object_path, "wb")` — which does NOT create missing
intermediate directories, so a key whose parent directory does not exist makes
the upload fail with 500 (server.py:511-519).  `ctype` stands for
`content_type or file.content_type`; `now` stamps the files written. -/
def upload_object (loads : Bytes → Except String JsonVal)
    (dumps : JsonVal → Bytes) (root : Root) (bucket filename : String)
    (content : Bytes) (ctype : Option String) (jsonParam : Option Bytes)
    (now : Nat) : Root × Except Nat UploadResult :=
  if !bucket_exists root bucket then (root, .error 404)
  else
    let object_key := filename
    if strEndsWith object_key "/" then
      -- `key.rstrip('/')` only removes trailing empty components, which
      -- `keySegs` drops anyway.
      match mkdirs (.dir root) (bucket :: keySegs object_key) with
      | some (.dir root1) =>
        let markerSegs := bucket :: (keySegs object_key ++ [".directory"])
        match writeFileAt (.dir root1) markerSegs
            (directoryMarkerContent now) now with
        | some (.dir root2) =>
          finishUpload loads dumps root2 bucket object_key markerSegs
            (directoryMarkerContent now).length ctype jsonParam now
        | _ => (root1, .error 500)
      | _ => (root, .error 500)
    else
      let objectSegs := bucket :: keySegs object_key
      match writeFileAt (.dir root) objectSegs content now with
      | some (.dir root1) =>
        finishUpload loads dumps root1 bucket object_key objectSegs
          content.length ctype jsonParam now
      | _ => (root, .error 500)

/-!
## Specification-side characterisations of the listing
-/

/-- Whether a key passes the `prefix` filter of `list_objects`: every key
passes an absent (or empty, hence falsy) filter, otherwise the key must start
with it. -/
def matchesPfx (pfx : Option String) (k : String) : Bool :=
  !pfxActive pfx || strStartsWith k (pfxVal pfx)

/-- The keys `scan_directory` can see, with sizes and mtimes, independent of
any prefix filter: paths to regular files whose final component neither ends
in `.metadata` nor is `.directory`, and whose intermediate directory
components neither end in `.metadata` nor start with `.`. -/
def visibleEntries : FSEntries → String → List ObjEntry
  | .nil, _ => []
  | .cons name (.file c mt) rest, acc =>
    let restRes := visibleEntries rest acc
    if strEndsWith name ".metadata" then restRes
    else if name = ".directory" then restRes
    else ⟨if acc = "" then name else acc ++ name, c.length, mt⟩ :: restRes
  | .cons name (.dir es2) rest, acc =>
    let restRes := visibleEntries rest acc
    if strEndsWith name ".metadata" then restRes
    else if name = ".directory" then restRes
    else if strStartsWith name "." then restRes
    else visibleEntries es2 (acc ++ name ++ "/") ++ restRes

/-- The keys claim C2 says a listing returns, before the prefix filter:
"full slash-joined paths from the bucket root to a regular file, excluding
`.metadata` and `.directory` entries" — read generously so that entries
ending in `.metadata` and entries named `.directory` are excluded at every
level, but nothing else is. -/
def claimListedKeys : FSEntries → String → List String
  | .nil, _ => []
  | .cons name (.file _ _) rest, acc =>
    let restRes := claimListedKeys rest acc
    if strEndsWith name ".metadata" then restRes
    else if name = ".directory" then restRes
    else (acc ++ name) :: restRes
  | .cons name (.dir es2) rest, acc =>
    let restRes := claimListedKeys rest acc
    if strEndsWith name ".metadata" then restRes
    else if name = ".directory" then restRes
    else claimListedKeys es2 (acc ++ name ++ "/") ++ restRes

/-- The names bound by a list of directory entries. -/
def entryNames : FSEntries → List String
  | .nil => []
  | .cons name _ rest => name :: entryNames rest

/-!
## Concrete states and stub collaborators for witnesses and counterexamples

`failLoads` stands for `json.loads` applied to input it rejects (for the
concrete malformed strings used below); `emptyDumps` is a placeholder
serialiser for runs in which no sidecar is ever written.  Neither is consulted
on any code path where its value matters to the statement in which it appears.
-/

/-- A `json.loads` that rejects its input, used where the concrete input is
malformed (or where no `json` form parameter is supplied at all). -/
def failLoads : Bytes → Except String JsonVal := fun _ => .error "Expecting value"

/-- A placeholder `json.dump` for runs that never write a sidecar. -/
def emptyDumps : JsonVal → Bytes := fun _ => []

/-- A storage root holding one empty bucket `b`. -/
def bucketOnlyRoot : Root := .cons "b" (.dir .nil) .nil

/-- A bucket holding a hidden directory `.git` (containing a regular file
`config`) next to a regular file `a.txt`. -/
def hiddenDirEntries : FSEntries :=
  .cons ".git" (.dir (.cons "config" (.file [104, 105] 0) .nil))
    (.cons "a.txt" (.file [97] 0) .nil)

/-- A storage root whose bucket `b` has the `hiddenDirEntries` contents. -/
def hiddenDirRoot : Root := .cons "b" (.dir hiddenDirEntries) .nil

/-- A storage root whose bucket `b` contains a single regular file named
`report.directory`. -/
def markerNameRoot : Root :=
  .cons "b" (.dir (.cons "report.directory" (.file [5, 6] 1) .nil)) .nil

/-- A storage root where a regular file occupies the name `b`. -/
def fileAtBucketRoot : Root := .cons "b" (.file [0] 0) .nil

/-- A storage root whose bucket `b` contains an object `f.txt` along with a
sidecar `f.txt.metadata` whose content is not valid JSON. -/
def badSidecarRoot : Root :=
  .cons "b"
    (.dir (.cons "f.txt" (.file [104] 2)
      (.cons "f.txt.metadata" (.file [123] 2) .nil))) .nil

/-- A storage root whose bucket `b` contains an object `f.txt` and no
sidecar. -/
def noSidecarRoot : Root :=
  .cons "b" (.dir (.cons "f.txt" (.file [104] 2) .nil)) .nil

/-- A storage root whose bucket `b` contains a regular file `doc.pdf`. -/
def oneObjectRoot : Root :=
  .cons "b" (.dir (.cons "doc.pdf" (.file [37, 80] 4) .nil)) .nil

/-- `bucketOnlyRoot` after `os.makedirs` has created `b/d`. -/
def dirMadeRoot : Root := .cons "b" (.dir (.cons "d" (.dir .nil) .nil)) .nil

/-- `dirMadeRoot` after the `.directory` marker file was written with
timestamp 3. -/
def markerWrittenRoot : Root :=
  .cons "b" (.dir (.cons "d"
    (.dir (.cons ".directory" (.file (directoryMarkerContent 3) 3) .nil))
    .nil)) .nil

/-- `bucketOnlyRoot` after the object file `f.txt` with content `[1]` was
written at timestamp 0. -/
def fileWrittenRoot : Root :=
  .cons "b" (.dir (.cons "f.txt" (.file [1] 0) .nil)) .nil

/-!
## Helper lemmas: strings
-/

/-- `strStartsWith` unfolded to list-level prefix order. -/
theorem strStartsWith_iff {s p : String} :
    strStartsWith s p = true ↔ p.data <+: s.data := by
  simp [strStartsWith]

/-- Every string starts with the empty string. -/
theorem strStartsWith_empty (s : String) : strStartsWith s "" = true := by
  simp [strStartsWith_iff]

/-- A concatenation starts with its first part. -/
theorem strStartsWith_append (a b : String) :
    strStartsWith (a ++ b) a = true := by
  simp [strStartsWith_iff]

/-- Transitivity of `strStartsWith`. -/
theorem strStartsWith_trans {s p q : String} (h1 : strStartsWith s p = true)
    (h2 : strStartsWith p q = true) : strStartsWith s q = true := by
  rw [strStartsWith_iff] at h1 h2 ⊢
  exact h2.trans h1

/-- Two prefixes of the same string are comparable: the pruning condition of
`scan_directory` cannot cut off a subtree containing a matching key. -/
theorem strStartsWith_comparable {k cp p : String}
    (h1 : strStartsWith k cp = true) (h2 : strStartsWith k p = true) :
    strStartsWith cp p = true ∨ strStartsWith p cp = true := by
  rw [strStartsWith_iff] at h1 h2 ⊢
  rw [strStartsWith_iff]
  exact (List.prefix_or_prefix_of_prefix h2 h1).imp id id

/-!
## Helper lemmas: filesystem primitives
-/

/-- Writing a name and looking it up again. -/
theorem lookup_setEntry_self : (es : FSEntries) → (s : String) → (n : FSNode) →
    lookupEntry (setEntry es s n) s = some n
  | .nil, s, n => by simp [setEntry, lookupEntry]
  | .cons k v rest, s, n => by
    by_cases h : k = s <;>
      simp [setEntry, lookupEntry, h, lookup_setEntry_self rest s n]

/-- Writing a name does not disturb other names. -/
theorem lookup_setEntry_ne : (es : FSEntries) → (s k : String) → (n : FSNode) →
    k ≠ s → lookupEntry (setEntry es s n) k = lookupEntry es k
  | .nil, s, k, n, h => by simp [setEntry, lookupEntry, Ne.symm h]
  | .cons k0 v rest, s, k, n, h => by
    by_cases h0 : k0 = s
    · subst h0
      simp [setEntry, lookupEntry, Ne.symm h]
    · simp [setEntry, lookupEntry, h0, lookup_setEntry_ne rest s k n h]

/-- A successful `open(..., "wb")` leaves a directory at the top. -/
theorem writeFileAt_dir {n n' : FSNode} {segs : List String} {c : Bytes}
    {mt : Nat} (h : writeFileAt n segs c mt = some n') :
    ∃ es', n' = .dir es' := by
  match n, segs with
  | .file _ _, _ => simp [writeFileAt] at h
  | .dir es, [] => simp [writeFileAt] at h
  | .dir es, s :: rest =>
    simp only [writeFileAt] at h
    split at h
    · split at h
      · simp at h
      · exact ⟨_, (Option.some_inj.mp h).symm⟩
    · split at h
      · rw [Option.map_eq_some'] at h
        obtain ⟨c2, _, hc⟩ := h
        exact ⟨_, hc.symm⟩
      · simp at h

/-- After a successful write, the written path resolves to the written file. -/
theorem resolve_writeFileAt : {n n' : FSNode} → {segs : List String} →
    {c : Bytes} → {mt : Nat} → writeFileAt n segs c mt = some n' →
    resolve n' segs = some (.file c mt)
  | .file _ _, _, _, _, _, h => by simp [writeFileAt] at h
  | .dir es, _, [], _, _, h => by simp [writeFileAt] at h
  | .dir es, n', [s], c, mt, h => by
    simp only [writeFileAt] at h
    split at h
    · simp at h
    · rw [Option.some_inj] at h
      subst h
      simp [resolve, lookup_setEntry_self]
  | .dir es, n', s :: r1 :: rrest, c, mt, h => by
    simp only [writeFileAt] at h
    split at h
    next child hchild =>
      rw [Option.map_eq_some'] at h
      obtain ⟨c2, hc2, hn'⟩ := h
      subst hn'
      simp only [resolve, lookup_setEntry_self]
      exact resolve_writeFileAt hc2
    next => simp at h

/-- `open(..., "wb")` succeeds exactly under `parentsOk`. -/
theorem writeFileAt_isSome : (n : FSNode) → (segs : List String) →
    (c : Bytes) → (mt : Nat) →
    (writeFileAt n segs c mt).isSome = parentsOk n segs
  | .file _ _, segs, c, mt => by simp [writeFileAt, parentsOk]
  | .dir es, [], c, mt => by simp [writeFileAt, parentsOk]
  | .dir es, [s], c, mt => by
    simp only [writeFileAt, parentsOk]
    split <;> simp
  | .dir es, s :: r1 :: rrest, c, mt => by
    simp only [writeFileAt, parentsOk]
    split
    next child hchild =>
      simp [Option.isSome_map', writeFileAt_isSome child (r1 :: rrest) c mt]
    next => simp

/-- Under `parentsOk`, the parent of the target path is an existing
directory. -/
theorem parentsOk_parent : (n : FSNode) → (segs : List String) →
    parentsOk n segs = true → ∃ es, resolve n segs.dropLast = some (.dir es)
  | .file _ _, _, h => by simp [parentsOk] at h
  | .dir es, [], h => by simp [parentsOk] at h
  | .dir es, [s], h => by
    exact ⟨es, by simp [resolve]⟩
  | .dir es, s :: r1 :: rrest, h => by
    simp only [parentsOk] at h
    split at h
    next child hchild =>
      obtain ⟨es2, h2⟩ := parentsOk_parent child (r1 :: rrest) h
      exact ⟨es2, by simpa [resolve, hchild, List.dropLast] using h2⟩
    next => simp at h

/-- A resolvable path has a resolvable parent. -/
theorem resolve_dropLast : (n : FSNode) → (segs : List String) →
    (v : FSNode) → resolve n segs = some v →
    ∃ u, resolve n segs.dropLast = some u
  | n, [], v, h => ⟨n, by simp [resolve]⟩
  | n, [s], v, h => ⟨n, by simp [resolve]⟩
  | .file _ _, s :: r1 :: rrest, v, h => by simp [resolve] at h
  | .dir es, s :: r1 :: rrest, v, h => by
    simp only [resolve] at h
    split at h
    next child hchild =>
      obtain ⟨u, hu⟩ := resolve_dropLast child (r1 :: rrest) v h
      exact ⟨u, by simpa [resolve, hchild, List.dropLast] using hu⟩
    next => simp at h

/-- Writing strictly below a bucket rewrites that bucket's entry with a
directory: the bucket still exists afterwards. -/
theorem writeFileAt_deep_shape {es : FSEntries} {n' : FSNode} {s r1 : String}
    {rrest : List String} {c : Bytes} {mt : Nat}
    (h : writeFileAt (.dir es) (s :: r1 :: rrest) c mt = some n') :
    ∃ es2, n' = .dir (setEntry es s (.dir es2)) := by
  simp only [writeFileAt] at h
  split at h
  next child hchild =>
    rw [Option.map_eq_some'] at h
    obtain ⟨c2, hc2, hn'⟩ := h
    obtain ⟨es2, hdir⟩ := writeFileAt_dir hc2
    subst hdir
    exact ⟨es2, hn'.symm⟩
  next => simp at h

/-- After a successful `os.makedirs`, the full chain resolves to a
directory. -/
theorem mkdirs_resolve : {n n' : FSNode} → {segs : List String} →
    mkdirs n segs = some n' → ∃ es, resolve n' segs = some (.dir es)
  | .file _ _, _, segs, h => by simp [mkdirs] at h
  | .dir es, _, [], h => by
    rw [mkdirs, Option.some_inj] at h
    exact ⟨es, by simp [← h, resolve]⟩
  | .dir es, n', s :: rest, h => by
    simp only [mkdirs] at h
    split at h
    next child hchild =>
      rw [Option.map_eq_some'] at h
      obtain ⟨c2, hc2, hn'⟩ := h
      obtain ⟨es2, h2⟩ := mkdirs_resolve hc2
      exact ⟨es2, by simp [← hn', resolve, lookup_setEntry_self, h2]⟩
    next =>
      rw [Option.map_eq_some'] at h
      obtain ⟨c2, hc2, hn'⟩ := h
      obtain ⟨es2, h2⟩ := mkdirs_resolve hc2
      exact ⟨es2, by simp [← hn', resolve, lookup_setEntry_self, h2]⟩

/-- Writing a file as the final component below a resolvable directory: the
directory now holds the file as an entry, and still resolves. -/
theorem resolve_writeFileAt_snoc : (n n' : FSNode) → (segs : List String) →
    (last : String) → (c : Bytes) → (mt : Nat) → (es0 : FSEntries) →
    writeFileAt n (segs ++ [last]) c mt = some n' →
    resolve n segs = some (.dir es0) →
    resolve n' segs = some (.dir (setEntry es0 last (.file c mt)))
  | n, n', [], last, c, mt, es0, hw, hr => by
    rw [resolve, Option.some_inj] at hr
    subst hr
    simp only [List.nil_append, writeFileAt] at hw
    split at hw
    · simp at hw
    · rw [Option.some_inj] at hw
      simp [← hw, resolve]
  | .file _ _, n', s :: srest, last, c, mt, es0, hw, hr => by
    simp [resolve] at hr
  | .dir es, n', s :: srest, last, c, mt, es0, hw, hr => by
    simp only [resolve] at hr
    split at hr
    next child hchild =>
      cases srest with
      | nil =>
        simp only [List.cons_append, List.nil_append, writeFileAt, hchild,
          List.append_eq] at hw
        rw [Option.map_eq_some'] at hw
        obtain ⟨c2, hc2, hn'⟩ := hw
        have h2 := resolve_writeFileAt_snoc _ _ [] _ _ _ _ hc2 hr
        rw [resolve, Option.some_inj] at h2
        subst h2
        simp [← hn', resolve, lookup_setEntry_self]
      | cons s2 srest2 =>
        simp only [List.cons_append, writeFileAt, hchild, List.append_eq] at hw
        rw [Option.map_eq_some'] at hw
        obtain ⟨c2, hc2, hn'⟩ := hw
        have h2 := resolve_writeFileAt_snoc _ _ (s2 :: srest2) _ _ _ _ hc2 hr
        simp [← hn', resolve, lookup_setEntry_self, h2]
    next => simp at hr

/-- A triple concatenation starts with its first part. -/
theorem strStartsWith_append_left (a b c : String) :
    strStartsWith (a ++ b ++ c) a = true := by
  simp [strStartsWith_iff, List.append_assoc]

/-!
## Helper lemmas: the listing walk
-/

/-- The key filter of `list_objects` as the negation of the skip condition at
server.py:623. -/
theorem matchesPfx_eq (pfx : Option String) (k : String) :
    matchesPfx pfx k
      = !(pfxActive pfx && !strStartsWith k (pfxVal pfx)) := by
  simp [matchesPfx, Bool.not_and]

/-- Every key `visibleEntries` produces below an accumulated prefix starts
with that prefix. -/
theorem visible_key_startsWith : (es : FSEntries) → (acc : String) →
    (e : ObjEntry) → e ∈ visibleEntries es acc →
    strStartsWith e.key acc = true
  | .nil, acc, e, h => by simp [visibleEntries] at h
  | .cons name (.file c mt) rest, acc, e, h => by
    simp only [visibleEntries] at h
    split at h
    · exact visible_key_startsWith rest acc e h
    · split at h
      · exact visible_key_startsWith rest acc e h
      · rcases List.mem_cons.mp h with he | h
        · subst he
          by_cases ha : acc = ""
          · simp [ha, strStartsWith_empty]
          · simp [ha, strStartsWith_append]
        · exact visible_key_startsWith rest acc e h
  | .cons name (.dir es2) rest, acc, e, h => by
    simp only [visibleEntries] at h
    split at h
    · exact visible_key_startsWith rest acc e h
    · split at h
      · exact visible_key_startsWith rest acc e h
      · split at h
        · exact visible_key_startsWith rest acc e h
        · rcases List.mem_append.mp h with h | h
          · exact strStartsWith_trans
              (visible_key_startsWith es2 (acc ++ name ++ "/") e h)
              (strStartsWith_append_left _ _ _)
          · exact visible_key_startsWith rest acc e h

/-- `scan_directory` emits exactly the visible entries whose keys pass the
prefix filter: the two-way descent check prunes only subtrees that cannot
contain a matching key. -/
theorem scan_eq_visible_filter : (pfx : Option String) → (es : FSEntries) →
    (acc : String) →
    (scan_directory pfx es acc).1
      = (visibleEntries es acc).filter (fun e => matchesPfx pfx e.key)
  | pfx, .nil, acc => by simp [scan_directory, visibleEntries]
  | pfx, .cons name (.file c mt) rest, acc => by
    have ihRest := scan_eq_visible_filter pfx rest acc
    simp only [scan_directory, visibleEntries]
    by_cases h1 : strEndsWith name ".metadata" = true
    · simp [h1, ihRest]
    · by_cases h2 : name = ".directory"
      · simp [h1, h2, ihRest]
      · cases hg : (pfxActive pfx
            && !strStartsWith (if acc = "" then name else acc ++ name)
                (pfxVal pfx)) with
        | true =>
          rcases Bool.and_eq_true .. |>.mp hg with ⟨ha, hs⟩
          rw [Bool.not_eq_true'] at hs
          simp [h1, h2, hg, ihRest, List.filter_cons, matchesPfx_eq, ha, hs]
        | false =>
          have hcond : pfxActive pfx = false
              ∨ strStartsWith (if acc = "" then name else acc ++ name)
                  (pfxVal pfx) = true := by
            rcases Bool.and_eq_false_iff.mp hg with ha | hs
            · exact Or.inl ha
            · exact Or.inr (by simpa using hs)
          simp [h1, h2, hg, ihRest, List.filter_cons, matchesPfx_eq, hcond]
  | pfx, .cons name (.dir es2) rest, acc => by
    have ihRest := scan_eq_visible_filter pfx rest acc
    have ihChild := scan_eq_visible_filter pfx es2 (acc ++ name ++ "/")
    simp only [scan_directory, visibleEntries]
    by_cases h1 : strEndsWith name ".metadata" = true
    · simp [h1, ihRest]
    · by_cases h2 : name = ".directory"
      · simp [h1, h2, ihRest]
      · by_cases h3 : strStartsWith name "." = true
        · simp [h1, h2, h3, ihRest]
        · cases hg : (pfxActive pfx
              && !strStartsWith (acc ++ name ++ "/") (pfxVal pfx)
              && !strStartsWith (pfxVal pfx) (acc ++ name ++ "/")) with
          | false =>
            simp [h1, h2, h3, hg, List.filter_append, ihChild, ihRest]
          | true =>
            rcases Bool.and_eq_true .. |>.mp hg with ⟨hg1, hg3⟩
            rcases Bool.and_eq_true .. |>.mp hg1 with ⟨ha, hg2⟩
            rw [Bool.not_eq_true'] at hg2 hg3
            have hnil : (visibleEntries es2 (acc ++ name ++ "/")).filter
                (fun e => matchesPfx pfx e.key) = [] := by
              rw [List.filter_eq_nil_iff]
              intro e he
              have hsw := visible_key_startsWith es2 (acc ++ name ++ "/") e he
              have hkey : strStartsWith e.key (pfxVal pfx) = false := by
                by_contra hk
                rw [Bool.not_eq_false] at hk
                rcases strStartsWith_comparable hsw hk with hc | hc
                · rw [hg2] at hc; exact Bool.false_ne_true hc
                · rw [hg3] at hc; exact Bool.false_ne_true hc
              simp [matchesPfx, ha, hkey]
            simp [h1, h2, h3, hg, List.filter_append, hnil, ihRest]

/-- A name that is not bound resolves to nothing. -/
theorem lookup_not_mem : (es : FSEntries) → (k : String) →
    k ∉ entryNames es → lookupEntry es k = none
  | .nil, k, _ => rfl
  | .cons k0 v rest, k, h => by
    simp only [entryNames, List.mem_cons, not_or] at h
    simp [lookupEntry, Ne.symm h.1, lookup_not_mem rest k h.2]

/-- Removing a name from duplicate-free entries makes it unresolvable. -/
theorem lookup_removeEntry_self : (es : FSEntries) → (k : String) →
    (entryNames es).Nodup → lookupEntry (removeEntry es k) k = none
  | .nil, k, _ => rfl
  | .cons k0 v rest, k, h => by
    rw [entryNames, List.nodup_cons] at h
    by_cases h0 : k0 = k
    · subst h0
      simp [removeEntry, lookup_not_mem rest k0 h.1]
    · simp [removeEntry, lookupEntry, h0, lookup_removeEntry_self rest k h.2]

/-- A bucket that exists is bound to a directory. -/
theorem bucket_exists_lookup {root : Root} {b : String}
    (hb : bucket_exists root b = true) :
    ∃ es, lookupEntry root b = some (.dir es) := by
  rw [bucket_exists] at hb
  split at hb
  next es h => exact ⟨es, h⟩
  next => exact absurd hb (by simp)

/-!
## The claims
-/

/-- C10: `create_bucket` checks for ANY existing filesystem entry at the
bucket path, while `bucket_exists` requires a directory: when a regular file
occupies the bucket path, creation fails with 409 AlreadyExists even though
`bucket_exists` is false, so every bucket-scoped operation on that name
reports 404 NotFound. -/
theorem create_bucket_file_collision (root : Root) (n : String) (c : Bytes)
    (mt : Nat) (hlk : lookupEntry root n = some (.file c mt)) :
    create_bucket root n = (root, .error 409)
      ∧ bucket_exists root n = false
      ∧ head_bucket root n = .error 404
      ∧ (∀ pfx, list_objects root n pfx = .error 404)
      ∧ (∀ f, (delete_bucket root n f).2 = .error 404)
      ∧ (∀ k, download_object root n k = .error 404)
      ∧ (∀ loads k, get_object_metadata loads root n k = .error 404)
      ∧ (∀ loads dumps k content ct jp now,
          (upload_object loads dumps root n k content ct jp now).2
            = .error 404) := by
  have hb : bucket_exists root n = false := by simp [bucket_exists, hlk]
  refine ⟨?_, hb, ?_, ?_, ?_, ?_, ?_, ?_⟩ <;>
    simp [create_bucket, head_bucket, list_objects, delete_bucket,
      download_object, get_object_metadata, upload_object, hb, hlk]

/-- Witness for C10 at a concrete root where a file occupies the name `b`. -/
theorem create_bucket_file_collision_witness :
    lookupEntry fileAtBucketRoot "b" = some (.file [0] 0)
      ∧ create_bucket fileAtBucketRoot "b" = (fileAtBucketRoot, .error 409)
      ∧ bucket_exists fileAtBucketRoot "b" = false
      ∧ list_objects fileAtBucketRoot "b" none = .error 404 :=
  ⟨rfl, (create_bucket_file_collision fileAtBucketRoot "b" [0] 0 rfl).1,
    (create_bucket_file_collision fileAtBucketRoot "b" [0] 0 rfl).2.1,
    (create_bucket_file_collision fileAtBucketRoot "b" [0] 0 rfl).2.2.2.1 none⟩

/-- C9: the emptiness check of `delete_bucket` (name SUFFIX `.directory`) and
the skip rule of the listing walk (name EXACTLY `.directory`) disagree: a
bucket whose only entry is a regular file named with a `.directory` suffix is
listed as holding that object, yet `delete_bucket` without `force`
succeeds. -/
theorem marker_suffix_discrepancy (root : Root) (b n : String) (c : Bytes)
    (mt : Nat)
    (hlk : lookupEntry root b = some (.dir (.cons n (.file c mt) .nil)))
    (h1 : strEndsWith n ".directory" = true)
    (h2 : n ≠ ".directory")
    (h3 : strEndsWith n ".metadata" = false) :
    list_objects root b none = .ok [⟨n, c.length, mt⟩]
      ∧ delete_bucket root b false = (removeEntry root b, .ok ()) := by
  have hb : bucket_exists root b = true := by simp [bucket_exists, hlk]
  constructor
  · simp [list_objects, hb, hlk, scan_directory, h2, h3, pfxActive]
  · simp [delete_bucket, hlk, hasObjects, h1, h3, keepDirs]

/-- Witness for C9 at a bucket holding only the file `report.directory`. -/
theorem marker_suffix_discrepancy_witness :
    strEndsWith "report.directory" ".directory" = true
      ∧ list_objects markerNameRoot "b" none = .ok [⟨"report.directory", 2, 1⟩]
      ∧ delete_bucket markerNameRoot "b" false
          = (removeEntry markerNameRoot "b", .ok ()) :=
  ⟨by decide,
    (marker_suffix_discrepancy markerNameRoot "b" "report.directory" [5, 6] 1
      rfl (by decide) (by decide) (by decide)).1,
    (marker_suffix_discrepancy markerNameRoot "b" "report.directory" [5, 6] 1
      rfl (by decide) (by decide) (by decide)).2⟩

/-- C8: deleting a bucket whose top level contains an entry that is neither a
`.metadata` nor a `.directory`-suffixed name fails with 409 NotEmpty without
`force` and leaves the store unchanged; with `force` it succeeds, removing the
contents and then the bucket directory itself. -/
theorem delete_bucket_notempty_force (root : Root) (b : String)
    (es : FSEntries)
    (hlk : lookupEntry root b = some (.dir es))
    (hno : hasObjects es = true)
    (hnd : (entryNames root).Nodup) :
    delete_bucket root b false = (root, .error 409)
      ∧ delete_bucket root b true = (removeEntry root b, .ok ())
      ∧ bucket_exists (removeEntry root b) b = false := by
  refine ⟨?_, ?_, ?_⟩
  · simp [delete_bucket, hlk, hno]
  · simp [delete_bucket, hlk, hno, keepDirs]
  · simp [bucket_exists, lookup_removeEntry_self root b hnd]

/-- Witness for C8 at a bucket holding the single object `doc.pdf`. -/
theorem delete_bucket_notempty_force_witness :
    hasObjects (.cons "doc.pdf" (.file [37, 80] 4) .nil) = true
      ∧ delete_bucket oneObjectRoot "b" false = (oneObjectRoot, .error 409)
      ∧ delete_bucket oneObjectRoot "b" true
          = (removeEntry oneObjectRoot "b", .ok ())
      ∧ bucket_exists (removeEntry oneObjectRoot "b") "b" = false :=
  ⟨by decide,
    (delete_bucket_notempty_force oneObjectRoot "b" _ rfl (by decide)
      (by decide)).1,
    (delete_bucket_notempty_force oneObjectRoot "b" _ rfl (by decide)
      (by decide)).2.1,
    (delete_bucket_notempty_force oneObjectRoot "b" _ rfl (by decide)
      (by decide)).2.2⟩

/-- C7: for an existing object, `get_object_metadata` returns `{}` when no
sidecar file exists, and an `error`-annotated object — not an exception or a
failed request — when the sidecar exists but fails to parse as JSON. -/
theorem get_object_metadata_degrade (loads : Bytes → Except String JsonVal)
    (root : Root) (b k : String)
    (hb : bucket_exists root b = true)
    (ho : object_exists root b k = true) :
    (resolve (.dir root) (sidecarSegs (b :: keySegs k)) = none →
      get_object_metadata loads root b k = .ok (.obj []))
    ∧ (∀ c mt e, resolve (.dir root) (sidecarSegs (b :: keySegs k))
          = some (.file c mt) →
        loads c = .error e →
        get_object_metadata loads root b k
          = .ok (.obj [("error",
              .str "Metadata file exists but contains invalid JSON format")])) := by
  constructor
  · intro hnone
    simp [get_object_metadata, hb, ho, hnone]
  · intro c mt e hfile hload
    simp [get_object_metadata, hb, ho, hfile, hload]

/-- Witness for C7: an object with no sidecar yields `{}`; an object whose
sidecar holds invalid JSON yields the embedded error object. -/
theorem get_object_metadata_degrade_witness :
    object_exists noSidecarRoot "b" "f.txt" = true
      ∧ object_exists badSidecarRoot "b" "f.txt" = true
      ∧ get_object_metadata failLoads noSidecarRoot "b" "f.txt"
          = .ok (.obj [])
      ∧ get_object_metadata failLoads badSidecarRoot "b" "f.txt"
          = .ok (.obj [("error",
              .str "Metadata file exists but contains invalid JSON format")]) :=
  ⟨by decide, by decide,
    (get_object_metadata_degrade failLoads noSidecarRoot "b" "f.txt"
      (by decide) (by decide)).1 rfl,
    (get_object_metadata_degrade failLoads badSidecarRoot "b" "f.txt"
      (by decide) (by decide)).2 [123] 2 "Expecting value" rfl rfl⟩

/-- C5, counterexample to the claim as stated: a child directory named
`x.metadata` does not start with `.` and its child prefix `x.metadata/`
starts with the filter `x`, yet a prefix-filtered walk does not descend into
it (its visited list is empty), because the sidecar-skip rule at
server.py:608 fires before the descent logic. -/
theorem scan_descend_metadata_dir_cex :
    (scan_directory (some "x") (.cons "x.metadata" (.dir .nil) .nil) "").2 = []
      ∧ strStartsWith ("x.metadata" ++ "/") "x" = true
      ∧ strStartsWith "x.metadata" "." = false :=
  ⟨rfl, by decide, by decide⟩

/-- C5 (amended): during a prefix-filtered listing, the walk descends into a
child directory whose name neither starts with `.` NOR ends with `.metadata`
if and only if the child prefix starts with the filter or the filter starts
with the child prefix; in particular, with filter `a/b` the walk still
descends into directory `a/`. -/
theorem scan_descend_iff (p acc name : String) (es2 : FSEntries)
    (hp : p ≠ "")
    (hdot : strStartsWith name "." = false)
    (hmeta : strEndsWith name ".metadata" = false) :
    ((acc ++ name ++ "/")
        ∈ (scan_directory (some p) (.cons name (.dir es2) .nil) acc).2)
      ↔ (strStartsWith (acc ++ name ++ "/") p = true
          ∨ strStartsWith p (acc ++ name ++ "/") = true) := by
  have hnd : name ≠ ".directory" := by
    intro h
    rw [h] at hdot
    exact absurd hdot (by decide)
  have ha : pfxActive (some p) = true := by simp [pfxActive, hp]
  cases hA : strStartsWith (acc ++ name ++ "/") p with
  | true => simp [scan_directory, hmeta, hnd, hdot, ha, pfxVal, hA]
  | false =>
    cases hB : strStartsWith p (acc ++ name ++ "/") with
    | true => simp [scan_directory, hmeta, hnd, hdot, ha, pfxVal, hA, hB]
    | false => simp [scan_directory, hmeta, hnd, hdot, ha, pfxVal, hA, hB]

/-- Witness for C5 (amended), including the claim's own example: with filter
`a/b`, the walk descends into the directory `a` at the bucket root. -/
theorem scan_descend_iff_witness :
    ("a/b" ≠ "" ∧ strStartsWith "a" "." = false
        ∧ strEndsWith "a" ".metadata" = false)
      ∧ ((("" ++ "a" ++ "/")
            ∈ (scan_directory (some "a/b") (.cons "a" (.dir .nil) .nil) "").2)
          ↔ (strStartsWith ("" ++ "a" ++ "/") "a/b" = true
              ∨ strStartsWith "a/b" ("" ++ "a" ++ "/") = true))
      ∧ ("" ++ "a" ++ "/")
          ∈ (scan_directory (some "a/b") (.cons "a" (.dir .nil) .nil) "").2 :=
  ⟨⟨by decide, by decide, by decide⟩,
    scan_descend_iff "a/b" "" "a" .nil (by decide) (by decide) (by decide),
    (scan_descend_iff "a/b" "" "a" .nil (by decide) (by decide)
      (by decide)).mpr (Or.inr (by decide))⟩

/-- C4: uploading a key that ends in `/` to an existing bucket creates no
retrievable object — `object_exists` is false afterwards — while the
corresponding directory exists and contains a `.directory` marker file; the
upload itself succeeds with the marker file standing in for the object.
(The hypotheses name the two filesystem steps of the marker branch —
`os.makedirs` and the marker write — succeeding, i.e. no existing regular
file blocks the directory chain.) -/
theorem upload_dir_marker (loads : Bytes → Except String JsonVal)
    (dumps : JsonVal → Bytes) (root : Root) (b key : String)
    (content : Bytes) (ct : Option String) (now : Nat)
    (root1 root2 : Root)
    (hb : bucket_exists root b = true)
    (ht : strEndsWith key "/" = true)
    (hmk : mkdirs (.dir root) (b :: keySegs key) = some (.dir root1))
    (hwr : writeFileAt (.dir root1) (b :: (keySegs key ++ [".directory"]))
        (directoryMarkerContent now) now = some (.dir root2)) :
    upload_object loads dumps root b key content ct none now
        = (root2,
            .ok ⟨key, (directoryMarkerContent now).length, b, ct, .obj []⟩)
      ∧ object_exists root2 b key = false
      ∧ ∃ es mc mmt,
          resolve (.dir root2) (b :: keySegs key) = some (.dir es)
            ∧ lookupEntry es ".directory" = some (.file mc mmt) := by
  obtain ⟨es0, hres0⟩ := mkdirs_resolve hmk
  have hres2 : resolve (.dir root2) (b :: keySegs key)
      = some (.dir (setEntry es0 ".directory"
          (.file (directoryMarkerContent now) now))) :=
    resolve_writeFileAt_snoc _ _ (b :: keySegs key) ".directory" _ _ _
      hwr hres0
  refine ⟨?_, ?_, ?_⟩
  · simp [upload_object, hb, ht, hmk, hwr, finishUpload]
  · simp [object_exists, ht, existsAt, isfileAt, hres2]
  · exact ⟨_, _, _, hres2, lookup_setEntry_self _ _ _⟩

/-- Witness for C4: uploading the key `d/` to an empty bucket. -/
theorem upload_dir_marker_witness :
    bucket_exists bucketOnlyRoot "b" = true
      ∧ strEndsWith "d/" "/" = true
      ∧ upload_object failLoads emptyDumps bucketOnlyRoot "b" "d/" [9] none
            none 3
          = (markerWrittenRoot,
              .ok ⟨"d/", (directoryMarkerContent 3).length, "b", none,
                .obj []⟩)
      ∧ object_exists markerWrittenRoot "b" "d/" = false
      ∧ ∃ es mc mmt,
          resolve (.dir markerWrittenRoot) ("b" :: keySegs "d/")
              = some (.dir es)
            ∧ lookupEntry es ".directory" = some (.file mc mmt) :=
  ⟨by decide, by decide,
    (upload_dir_marker failLoads emptyDumps bucketOnlyRoot "b" "d/" [9] none 3
      dirMadeRoot markerWrittenRoot (by decide) (by decide) rfl rfl).1,
    (upload_dir_marker failLoads emptyDumps bucketOnlyRoot "b" "d/" [9] none 3
      dirMadeRoot markerWrittenRoot (by decide) (by decide) rfl rfl).2.1,
    (upload_dir_marker failLoads emptyDumps bucketOnlyRoot "b" "d/" [9] none 3
      dirMadeRoot markerWrittenRoot (by decide) (by decide) rfl rfl).2.2⟩

/-- C6: the `json` form parameter of `upload_object` shadows the `json`
module, so when the supplied metadata string is malformed the except clause
`json.JSONDecodeError` itself raises `AttributeError`, which escapes the
handler: the request fails with 500 — despite the code's own comment "Don't
fail the upload" (server.py:540) — even though the object file was already
written. -/
theorem upload_bad_metadata_json_fails (loads : Bytes → Except String JsonVal)
    (dumps : JsonVal → Bytes) (root root1 : Root) (b fname : String)
    (content : Bytes) (ct : Option String) (j : Bytes) (msg : String)
    (now : Nat)
    (hb : bucket_exists root b = true)
    (ht : strEndsWith fname "/" = false)
    (hw : writeFileAt (.dir root) (b :: keySegs fname) content now
        = some (.dir root1))
    (hne : j ≠ [])
    (hj : loads j = .error msg) :
    upload_object loads dumps root b fname content ct (some j) now
        = (root1, .error 500)
      ∧ resolve (.dir root1) (b :: keySegs fname)
          = some (.file content now) := by
  constructor
  · simp [upload_object, hb, ht, hw, finishUpload, hne, hj]
  · exact resolve_writeFileAt hw

/-- Witness for C6: uploading `f.txt` with a malformed `json` form field to an
existing bucket fails with 500 although the object file is on disk. -/
theorem upload_bad_metadata_json_fails_witness :
    failLoads [123] = .error "Expecting value"
      ∧ upload_object failLoads emptyDumps bucketOnlyRoot "b" "f.txt" [1] none
            (some [123]) 0
          = (fileWrittenRoot, .error 500)
      ∧ resolve (.dir fileWrittenRoot) ("b" :: keySegs "f.txt")
          = some (.file [1] 0) :=
  ⟨rfl,
    (upload_bad_metadata_json_fails failLoads emptyDumps bucketOnlyRoot
      fileWrittenRoot "b" "f.txt" [1] none [123] "Expecting value" 0
      (by decide) (by decide) rfl (by decide) rfl).1,
    (upload_bad_metadata_json_fails failLoads emptyDumps bucketOnlyRoot
      fileWrittenRoot "b" "f.txt" [1] none [123] "Expecting value" 0
      (by decide) (by decide) rfl (by decide) rfl).2⟩

/-- C3, counterexample to the claim as stated: uploading the key `x/y/z.bin`
into a bucket whose directory `x` does not exist fails with 500 and creates
neither the intermediate directories nor the object. -/
theorem upload_no_mkdir_cex :
    upload_object failLoads emptyDumps bucketOnlyRoot "b" "x/y/z.bin" [7] none
        none 1 = (bucketOnlyRoot, .error 500)
      ∧ resolve (.dir bucketOnlyRoot) ["b", "x"] = none :=
  ⟨rfl, rfl⟩

/-- C3 (amended): `upload_object` does NOT create missing intermediate
directories for a regular (non-marker) key: when the parent directory of the
object path does not exist, the upload fails with 500 and the store is left
unchanged. -/
theorem upload_missing_parent_fails (loads : Bytes → Except String JsonVal)
    (dumps : JsonVal → Bytes) (root : Root) (b key : String)
    (content : Bytes) (ct : Option String) (jp : Option Bytes) (now : Nat)
    (hb : bucket_exists root b = true)
    (ht : strEndsWith key "/" = false)
    (hmiss : resolve (.dir root) ((b :: keySegs key).dropLast) = none) :
    upload_object loads dumps root b key content ct jp now
        = (root, .error 500) := by
  have hw : writeFileAt (.dir root) (b :: keySegs key) content now = none := by
    cases hcase : writeFileAt (.dir root) (b :: keySegs key) content now with
    | none => rfl
    | some n' =>
      have hsome : (writeFileAt (.dir root) (b :: keySegs key) content
          now).isSome = true := by simp [hcase]
      rw [writeFileAt_isSome] at hsome
      obtain ⟨es, hres⟩ := parentsOk_parent _ _ hsome
      rw [hres] at hmiss
      exact absurd hmiss (by simp)
  simp [upload_object, hb, ht, hw]

/-- Witness for C3 (amended): the parent `b/p` of key `p/q.bin` is missing, so
the upload fails with 500 and changes nothing. -/
theorem upload_missing_parent_fails_witness :
    bucket_exists bucketOnlyRoot "b" = true
      ∧ resolve (.dir bucketOnlyRoot) (("b" :: keySegs "p/q.bin").dropLast)
          = none
      ∧ upload_object failLoads emptyDumps bucketOnlyRoot "b" "p/q.bin"
          [2, 3] none none 4 = (bucketOnlyRoot, .error 500) :=
  ⟨by decide, rfl,
    upload_missing_parent_fails failLoads emptyDumps bucketOnlyRoot "b"
      "p/q.bin" [2, 3] none none 4 (by decide) (by decide) rfl⟩

/-- C1, counterexample to the claim as stated: the claim includes keys whose
intermediate directories do not exist before the put, but uploading `a/b.txt`
into a bucket with no directory `a` fails with 500 (regular uploads use
`open(path, "wb")` with no `makedirs`), so the subsequent get cannot return
the bytes — it fails with 404. -/
theorem put_get_missing_parent_cex :
    upload_object failLoads emptyDumps bucketOnlyRoot "b" "a/b.txt" [1, 2, 3]
        none none 0 = (bucketOnlyRoot, .error 500)
      ∧ download_object bucketOnlyRoot "b" "a/b.txt" = .error 404 :=
  ⟨rfl, rfl⟩

/-- C1 (amended): for an existing bucket and a key not ending in `/`, when
every intermediate directory of the key already exists (and no directory
occupies the object path — the `parentsOk` condition under which
`open(path, "wb")` succeeds), `upload_object` followed by `download_object`
returns exactly the uploaded bytes; when an intermediate directory is
missing, the upload itself fails with 500. -/
theorem put_get_roundtrip (loads : Bytes → Except String JsonVal)
    (dumps : JsonVal → Bytes) (root : Root) (b key : String)
    (content : Bytes) (ct : Option String) (now : Nat)
    (hb : bucket_exists root b = true)
    (ht : strEndsWith key "/" = false)
    (hp : parentsOk (.dir root) (b :: keySegs key) = true) :
    ∃ root1, upload_object loads dumps root b key content ct none now
        = (root1, .ok ⟨key, content.length, b, ct, .obj []⟩)
      ∧ download_object root1 b key = .ok content := by
  have hs : (writeFileAt (.dir root) (b :: keySegs key) content
      now).isSome = true := by
    rw [writeFileAt_isSome]
    exact hp
  obtain ⟨n', hw⟩ := Option.isSome_iff_exists.mp hs
  obtain ⟨root1, rfl⟩ := writeFileAt_dir hw
  have hres := resolve_writeFileAt hw
  have hks : keySegs key ≠ [] := by
    intro h0
    rw [h0] at hw
    obtain ⟨esb, hlkb⟩ := bucket_exists_lookup hb
    simp [writeFileAt, hlkb] at hw
  refine ⟨root1, ?_, ?_⟩
  · simp [upload_object, hb, ht, hw, finishUpload]
  · have hoe : object_exists root1 b key = true := by
      obtain ⟨u, hu⟩ := resolve_dropLast _ _ _ hres
      cases u <;> simp [object_exists, ht, existsAt, isfileAt, hres, hu]
    obtain ⟨k1, krest, hkk⟩ : ∃ k1 krest, keySegs key = k1 :: krest := by
      cases hkk : keySegs key with
      | nil => exact absurd hkk hks
      | cons a l => exact ⟨a, l, rfl⟩
    rw [hkk] at hw
    obtain ⟨es2, hshape⟩ := writeFileAt_deep_shape hw
    have hroot1 : root1 = setEntry root b (.dir es2) := by
      injection hshape
    have hb1 : bucket_exists root1 b = true := by
      simp [bucket_exists, hroot1, lookup_setEntry_self]
    simp [download_object, hb1, hoe, hres]

/-- Witness for C1 (amended): round trip of `[104, 105]` through key `f.txt`
in an empty bucket. -/
theorem put_get_roundtrip_witness :
    bucket_exists bucketOnlyRoot "b" = true
      ∧ strEndsWith "f.txt" "/" = false
      ∧ parentsOk (.dir bucketOnlyRoot) ("b" :: keySegs "f.txt") = true
      ∧ ∃ root1, upload_object failLoads emptyDumps bucketOnlyRoot "b" "f.txt"
            [104, 105] none none 5
          = (root1, .ok ⟨"f.txt", 2, "b", none, .obj []⟩)
        ∧ download_object root1 "b" "f.txt" = .ok [104, 105] :=
  ⟨by decide, by decide, by decide,
    put_get_roundtrip failLoads emptyDumps bucketOnlyRoot "b" "f.txt"
      [104, 105] none 5 (by decide) (by decide) (by decide)⟩

/-- C2, counterexample to the claim as stated: the listing walk skips every
hidden directory, not only `.directory` and `.metadata` entries; the regular
file `.git/config` is a slash-joined path to a regular file with no
`.metadata`- or `.directory`-named component, so the claim includes it, yet
an unfiltered listing of the bucket returns only `a.txt`. -/
theorem list_objects_hidden_dir_cex :
    list_objects hiddenDirRoot "b" none = .ok [⟨"a.txt", 1, 0⟩]
      ∧ ".git/config" ∈ claimListedKeys hiddenDirEntries ""
      ∧ ".git/config" ∉ ["a.txt"] :=
  ⟨rfl, by decide, by decide⟩

/-- C2 (amended): for an existing bucket, `list_objects` returns exactly the
entries `(key, size, mtime)` of the regular files whose final path component
neither ends in `.metadata` nor is named `.directory` and whose intermediate
directory components neither start with `.` nor end in `.metadata`
(`visibleEntries`), filtered to the keys that start with the prefix when a
non-empty prefix is given; with no (or an empty) prefix it returns all such
entries. -/
theorem list_objects_visible_filter (root : Root) (b : String)
    (es : FSEntries) (pfx : Option String)
    (hlk : lookupEntry root b = some (.dir es)) :
    list_objects root b pfx
      = .ok ((visibleEntries es "").filter (fun e => matchesPfx pfx e.key)) := by
  have hb : bucket_exists root b = true := by simp [bucket_exists, hlk]
  simp [list_objects, hb, hlk, scan_eq_visible_filter]

/-- Witness for C2 (amended) on the hidden-directory bucket with prefix
`a`. -/
theorem list_objects_visible_filter_witness :
    lookupEntry hiddenDirRoot "b" = some (.dir hiddenDirEntries)
      ∧ list_objects hiddenDirRoot "b" (some "a")
          = .ok ((visibleEntries hiddenDirEntries "").filter
              (fun e => matchesPfx (some "a") e.key)) :=
  ⟨rfl, list_objects_visible_filter hiddenDirRoot "b" hiddenDirEntries
    (some "a") rfl⟩

end OpenS3
